import Mathlib

/-!
Verification of the agent execution and workflow orchestration engine.

This development gives a shallow embedding, in Lean, of the core of the
TypeScript source: the retry/timeout agent contract (`BaseAgent.execute`),
the dependency/condition-graph workflow executor
(`SimpleWorkflowExecutor.executeWorkflow`), the structured-output recovery
pipeline of the key-point extractor
(`KeyPointExtractorAgent.parseKeyPointsResponse` and
`validateAndCleanKeyPoints`), the quiz question normalizer
(`QuizAgent.validateAndNormalizeQuestion` / `optimizeQuestions`) and the
learning path optimizer (`LearningPathAgent.optimizeLearningPath`).

Conventions used throughout:
- JavaScript strings are modelled as Lean `String`; `trim`, `substring`,
  `toLowerCase` and regular-expression operations are implemented over the
  underlying character list.  JS string `length` (UTF-16 units) is modelled
  as codepoint count, which agrees for all characters of the Basic
  Multilingual Plane (everything this code base manipulates).
- JS falsiness of an optional string (`undefined` or `""`) is modelled on
  `Option String`.
- External collaborators (the LLM backend and the built-in `JSON.parse`)
  are modelled as abstract function parameters; every piece of control flow
  of the repository itself is translated directly.
- Asynchronous code is sequentialized: an `await`ed operation that either
  resolves or rejects (including by the timeout race) becomes a value of
  `Except String α`.
-/

/-! ## JavaScript string primitives -/

/-- Characters matched by the JS regex class `\s` (for the ASCII/BMP range
used by this code base: space, tab, line feed, carriage return, vertical
tab, form feed). -/
def isJsWs (c : Char) : Bool :=
  c = ' ' || c = '\t' || c = '\n' || c = '\r' || c = '\x0b' || c = '\x0c'

/-- Models `String.prototype.trim` on a character list. -/
def jsTrimL (l : List Char) : List Char :=
  ((l.dropWhile isJsWs).reverse.dropWhile isJsWs).reverse

/-- Models `String.prototype.trim`. -/
def jsTrim (s : String) : String := ⟨jsTrimL s.data⟩

/-- Models `replace(/p+/g, ' ')`: every maximal run of characters satisfying `p`
is replaced by a single space.  The flag records whether the scan is
currently inside such a run (whose space has already been emitted). -/
def collapseRunsAux (p : Char → Bool) (inRun : Bool) : List Char → List Char
  | [] => []
  | c :: rest =>
    if p c then
      if inRun then collapseRunsAux p true rest
      else ' ' :: collapseRunsAux p true rest
    else c :: collapseRunsAux p false rest

/-- Models `replace(/p+/g, ' ')`. -/
def collapseRuns (p : Char → Bool) (l : List Char) : List Char :=
  collapseRunsAux p false l

/-- Models `BaseAgent.cleanText`: `text.replace(/\s+/g, ' ').replace(/[\r\n]+/g, ' ').trim()`.
The second `replace` of the source is applied too, although it is an
identity here: after the first replace no `\r` or `\n` remains. -/
def cleanText (s : String) : String :=
  ⟨jsTrimL (collapseRuns (fun c => c = '\r' || c = '\n')
      (collapseRuns isJsWs s.data))⟩

/-- Models `substring(0, n)` (the only form of `substring` used by the code). -/
def jsSubstrTo (s : String) (n : Nat) : String := ⟨s.data.take n⟩

/-- Models `String.prototype.includes(pat)`. -/
def hasSubstr (pat : List Char) : List Char → Bool
  | [] => pat.isEmpty
  | c :: rest => pat.isPrefixOf (c :: rest) || hasSubstr pat rest

/-- Models `String.prototype.includes`. -/
def jsIncludes (s pat : String) : Bool := hasSubstr pat.data s.data

/-- JS `||` default for an optional string: `undefined` and `""` are falsy. -/
def jsOrStr (o : Option String) (d : String) : String :=
  match o with
  | some s => if s = "" then d else s
  | none => d

/-- Models `String.prototype.toLowerCase`, character-wise (ASCII case mapping —
the identifiers and enum values this code lowercases are ASCII). -/
def strToLower (s : String) : String := ⟨s.data.map Char.toLower⟩

/-- Models `String.prototype.startsWith`. -/
def jsStartsWith (s pat : String) : Bool := pat.data.isPrefixOf s.data

/-- Models `String.prototype.split('\n')`, accumulating the current line in
reverse. -/
def splitLinesAux (cur : List Char) : List Char → List String
  | [] => [⟨cur.reverse⟩]
  | c :: rest =>
    if c = '\n' then ⟨cur.reverse⟩ :: splitLinesAux [] rest
    else splitLinesAux (c :: cur) rest

/-- Models `text.split('\n')`. -/
def splitLines (text : String) : List String := splitLinesAux [] text.data

/-! ## Agent Contract: `BaseAgent.execute` (src/unnamed/part_005, lines 338-392)

`doExecute` (raced against the timeout) is modelled as a function from the
attempt number to `Except String α`: `.ok v` is a resolved attempt, and
`.error e` an attempt that threw or timed out, carrying the JS error's
`message`.  The `delay(1000 * attempt)` waits are recorded in a list. -/

/-- The agent's 3-state status machine. -/
inductive AgentStatus where
  | idle
  | running
  | error
deriving DecidableEq, Repr

/-- Outcome of the retry loop of `execute`. -/
inductive LoopOutcome (α : Type) where
  | ok (v : α) (attempt : Nat)
  | failed (lastErr : Option String)
deriving DecidableEq

/-- Accumulated result of the retry loop: outcome, the backoff waits
performed (ms), and the number of calls made to `doExecute`. -/
structure AttemptLoopRes (α : Type) where
  outcome : LoopOutcome α
  delays : List Nat
  calls : Nat
deriving DecidableEq

/-- The `for (let attempt = 1; attempt <= maxRetries; attempt++)` loop of
`BaseAgent.execute`: try `doExecute`; on failure remember `lastError` and,
when `attempt < maxRetries`, wait `1000 * attempt` ms before retrying. -/
def attemptLoop {α : Type} (doExec : Nat → Except String α) (maxRetries : Nat)
    (attempt : Nat) (lastErr : Option String) (delays : List Nat) (calls : Nat) :
    AttemptLoopRes α :=
  if maxRetries < attempt then ⟨.failed lastErr, delays, calls⟩
  else
    match doExec attempt with
    | .ok v => ⟨.ok v attempt, delays, calls + 1⟩
    | .error e =>
      attemptLoop doExec maxRetries (attempt + 1) (some e)
        (if attempt < maxRetries then delays ++ [1000 * attempt] else delays)
        (calls + 1)
termination_by maxRetries + 1 - attempt

/-- Result of `BaseAgent.execute`: the returned `AgentResult` object
(`success`/`data`/`error`, with `attemptsMade` the number of `doExecute`
invocations performed), the backoff waits, and the agent's status after the
call (starting from `idle`). -/
structure ExecOutcome (α : Type) where
  success : Bool
  data : Option α
  error : Option String
  attemptsMade : Nat
  delays : List Nat
  status : AgentStatus

/-- Models `BaseAgent.execute` (src/unnamed/part_005 lines 338-392).
`cfgMaxRetries` is `this.config.maxRetries` as set by the constructor; the
body re-applies the JS default `this.config.maxRetries || 3`, so a
configured value of `0` (falsy) is replaced by `3`.  `validInput` is the
result of `this.validateInput(input)`. -/
def BaseAgent.execute {α : Type} (agentName : String) (cfgMaxRetries : Nat)
    (validInput : Bool) (doExec : Nat → Except String α) : ExecOutcome α :=
  if !validInput then
    { success := false, data := none,
      error := some ("Invalid input for agent " ++ agentName),
      attemptsMade := 0, delays := [], status := .idle }
  else
    let maxRetries := if cfgMaxRetries = 0 then 3 else cfgMaxRetries
    match attemptLoop doExec maxRetries 1 none [] 0 with
    | ⟨.ok v _, ds, calls⟩ =>
      -- metadata.attempts of the source equals the successful attempt's
      -- index, which coincides with the number of calls made.
      { success := true, data := some v, error := none,
        attemptsMade := calls, delays := ds, status := .idle }
    | ⟨.failed lastErr, ds, calls⟩ =>
      { success := false, data := none,
        error := some ("Agent " ++ agentName ++ " failed after "
          ++ toString maxRetries ++ " attempts: " ++ lastErr.getD "undefined"),
        attemptsMade := calls, delays := ds, status := .error }

/-! ## Workflow executor: `SimpleWorkflowExecutor` (src/unnamed/part_007)

The shared `WorkflowState` is modelled with its bookkeeping fields
(`errors`, `currentStep`, `sessionId`, `completed`) explicit and all the
domain-specific fields (`parsedDocument`, `keyPoints`, ...) collected in an
association list `fields`, since the scheduler treats them opaquely: a
step's partial result is merged by object spread `{...state, ...partial}`,
i.e. keys present in the partial override those of the state.

Each step's agent invocation is modelled by a parameter
`rt : String → WState → Except String (List (String × String) × String)`:
given the step *type* and the current state it either returns the partial
result's domain fields together with the `currentStep` marker it sets
(`.ok`), or throws with a message (`.error`) — in the source the
`executeXxx` helpers throw when the agent's `AgentResult` has
`success: false`, and `executeStep` catches every such throw. -/

/-- The scheduler-visible part of `WorkflowState`. -/
structure WState where
  fields : List (String × String)
  errors : List String
  currentStep : Option String
  sessionId : String
  completed : Bool

/-- A `WorkflowStep`: id, type, declared dependencies and optional
condition.  A source step without a `dependencies` array is modelled by
`deps = []` (`checkDependencies` treats both identically). -/
structure WStep where
  id : String
  type : String
  deps : List String
  cond : Option (WState → Bool)

/-- The step runner abstraction described above. -/
abbrev StepRunner := String → WState → Except String (List (String × String) × String)

/-- Merge of domain fields by object spread: keys of `upd` override. -/
def mergeFields (old upd : List (String × String)) : List (String × String) :=
  old.filter (fun p => !(upd.any (fun q => q.1 == p.1))) ++ upd

/-- Models `SimpleWorkflowExecutor.executeStep` followed by the merge
`state = { ...state, ...stepResult }` (part_007 lines 145-177 and 380-381).
On success the partial result carries the updated domain fields and a
`currentStep` marker; when the dispatched helper throws, `executeStep`'s
own `catch` returns `{ errors: [...state.errors, "Step <type> failed: <msg>"] }`,
so the merge replaces `errors` with that extended array and leaves every
other field unchanged.  `executeStep` never lets an exception escape. -/
def execStepMerged (rt : StepRunner) (stepType : String) (state : WState) : WState :=
  match rt stepType state with
  | .ok (upd, cur) =>
    { state with fields := mergeFields state.fields upd, currentStep := some cur }
  | .error msg =>
    { state with errors := state.errors ++ ["Step " ++ stepType ++ " failed: " ++ msg] }

/-- Models `SimpleWorkflowExecutor.checkDependencies` (part_007 lines 329-335). -/
def checkDependencies (step : WStep) (completedSteps : List String) : Bool :=
  step.deps.all (fun dep => completedSteps.contains dep)

/-- Models `SimpleWorkflowExecutor.checkCondition` (part_007 lines 340-343). -/
def checkCondition (step : WStep) (state : WState) : Bool :=
  match step.cond with
  | none => true
  | some c => c state

/-- Result of one round of the executor's `while` loop: the steps still
pending (in declaration order), the completed-step ids, the state, the
`progressMade` flag, and — as pure instrumentation absent from the source —
the ids of the steps executed this round, in execution order. -/
structure RoundResult where
  pending : List WStep
  completed : List String
  state : WState
  progress : Bool
  trace : List String

/-- One round of `executeWorkflow`'s inner
`for (let i = pendingSteps.length - 1; i >= 0; i--)` loop (part_007 lines
372-392): the scan starts at the *last* pending step and walks towards the
first, so in this rendering the tail of the list is processed before the
head.  A runnable step (dependencies completed, condition true) is
executed, its result merged immediately, its id added to `completedSteps`,
and it is spliced out of the pending list. -/
def roundScan (rt : StepRunner) (completedSteps : List String) (state : WState) :
    List WStep → RoundResult
  | [] => ⟨[], completedSteps, state, false, []⟩
  | step :: rest =>
    let r := roundScan rt completedSteps state rest
    if checkDependencies step r.completed && checkCondition step r.state then
      ⟨r.pending, step.id :: r.completed, execStepMerged rt step.type r.state,
        true, r.trace ++ [step.id]⟩
    else
      ⟨step :: r.pending, r.completed, r.state, r.progress, r.trace⟩

/-- The stall error appended by `executeWorkflow` when a round makes no
progress (part_007 lines 395-399). -/
def stallMsg : String :=
  "Workflow execution stalled - possible circular dependencies or unmet conditions"

/-- The `while (pendingSteps.length > 0)` loop of `executeWorkflow`
(part_007 lines 369-400).  The source loop terminates because every
iteration either removes at least one pending step or `break`s on the
stall; we render it with an explicit bound `fuel` on the number of rounds.
A caller passing `fuel = pending.length + 1` can never exhaust it (each
round with progress strictly shrinks `pending`), as the round-progress
lemmas below make precise. -/
def workflowLoop (rt : StepRunner) : Nat → List WStep → List String → WState →
    List WStep × WState
  | 0, pending, _, state => (pending, state)
  | fuel + 1, pending, completedSteps, state =>
    if pending.isEmpty then (pending, state)
    else
      let r := roundScan rt completedSteps state pending
      if r.progress then workflowLoop rt fuel r.pending r.completed r.state
      else (r.pending, { r.state with errors := r.state.errors ++ [stallMsg] })

/-- The initial state built by `executeWorkflow` (part_007 lines 359-364):
the caller's initial fields, `errors` reset to `[]`, `completed` to
`false`.  `sessionId` defaulting via `Date.now()` is modelled by taking the
resulting session id as a parameter. -/
def initWState (initFields : List (String × String)) (sessionId : String) : WState :=
  { fields := initFields, errors := [], currentStep := none,
    sessionId := sessionId, completed := false }

/-- Models `SimpleWorkflowExecutor.executeWorkflow` (part_007 lines 348-404),
starting after the workflow-definition lookup: the step list of the chosen
`WorkflowDefinition` is passed directly.  After the loop,
`state.completed = pendingSteps.length === 0 && (state.errors?.length || 0) === 0`. -/
def executeWorkflow (rt : StepRunner) (steps : List WStep)
    (initFields : List (String × String)) (sessionId : String) : WState :=
  let r := workflowLoop rt (steps.length + 1) steps [] (initWState initFields sessionId)
  { r.2 with completed := r.1.isEmpty && r.2.errors.isEmpty }

/-- Left-to-right sequential scanner used to *state* the order in which a
round executes steps: it processes the given list front to back, executing
each runnable step and merging its result immediately before looking at
the next entry.  A round of the source's executor is exactly this scanner
run on the *reversed* pending list, as proved further below. -/
def seqScan (rt : StepRunner) (completedSteps : List String) (state : WState) :
    List WStep → RoundResult
  | [] => ⟨[], completedSteps, state, false, []⟩
  | step :: rest =>
    if checkDependencies step completedSteps && checkCondition step state then
      let r := seqScan rt (step.id :: completedSteps)
        (execStepMerged rt step.type state) rest
      ⟨r.pending, r.completed, r.state, true, step.id :: r.trace⟩
    else
      let r := seqScan rt completedSteps state rest
      ⟨step :: r.pending, r.completed, r.state, r.progress, r.trace⟩

/-! ## Key-point extractor (src/backend/src/agents/keypoint-extractor.agent.ts)

Items flowing through the recovery pipeline are raw JSON objects whose
fields may be absent, so every field is an `Option`.  The built-in
`JSON.parse` is an external collaborator and is abstracted as a parameter
`jp : String → Option JsValue`: `none` models a parse that throws,
`some (.arr items)` a parse producing an array of items, and
`some .nonArray` a successful parse of anything that fails
`Array.isArray`. -/

/-- A key point as it appears inside the pipeline (fields possibly absent). -/
structure RawKeyPoint where
  concept : Option String
  description : Option String
  importance : Option String
  category : Option String
  examples : Option (List String)
deriving DecidableEq

/-- An empty raw object `{}`. -/
def emptyRawKeyPoint : RawKeyPoint := ⟨none, none, none, none, none⟩

/-- Abstraction of a `JSON.parse` result cast to `KeyPoint[]`. -/
inductive JsValue where
  | arr (items : List RawKeyPoint)
  | nonArray
deriving DecidableEq

/-- Models `BaseAgent.safeJsonParse(text, [])` (src/unnamed/part_005 lines
426-432): `JSON.parse` under `try`/`catch` with fallback `[]`. -/
def safeJsonParse (jp : String → Option JsValue) (text : String) : JsValue :=
  (jp text).getD (.arr [])

/-! ### The bracket-extraction regex `/\[\s*{[\s\S]*}\s*\]/`

`greedyClose` resolves the greedy `[\s\S]*`: scanning the body from the
right, it finds the longest prefix `mid` such that the body decomposes as
`mid ++ '}' :: ws ++ ']' :: tail` with `ws` all whitespace.  `bracketSearch`
implements the regex engine's leftmost-match rule over candidate `[`
positions. -/

/-- Scan the *reversed* body for the rightmost `'}' ws* ']'` closing; on
success return `(mid, ws)` in forward order. -/
def greedyCloseRev : List Char → Option (List Char × List Char)
  | [] => none
  | c :: rest =>
    if c = ']' then
      match rest.dropWhile isJsWs with
      | '}' :: midRev => some (midRev.reverse, (rest.takeWhile isJsWs).reverse)
      | _ => greedyCloseRev rest
    else greedyCloseRev rest

/-- Try to complete a match starting right after a `'['`: `\s* { [\s\S]* } \s* ]`.
Returns the matched characters after the `'['`. -/
def tryAfterOpen (rest : List Char) : Option (List Char) :=
  match rest.dropWhile isJsWs with
  | '{' :: body =>
    match greedyCloseRev body.reverse with
    | some (mid, ws2) =>
      some (rest.takeWhile isJsWs ++ '{' :: (mid ++ '}' :: (ws2 ++ [']'])))
    | none => none
  | _ => none

/-- Leftmost match of `/\[\s*{[\s\S]*}\s*\]/`. -/
def bracketSearch : List Char → Option (List Char)
  | [] => none
  | c :: rest =>
    if c = '[' then
      match tryAfterOpen rest with
      | some m => some ('[' :: m)
      | none => bracketSearch rest
    else bracketSearch rest

/-- Models `responseText.match(/\[\s*{[\s\S]*}\s*\]/)`, returning the matched
substring. -/
def bracketMatch (s : String) : Option String :=
  (bracketSearch s.data).map (fun l => ⟨l⟩)

/-! ### Line-oriented heuristic parsing (`parseKeyPointsFromText`) -/

/-- Does the trimmed line start with `\d+\.`? -/
def startsDigitsDot (t : String) : Bool :=
  let ds := t.data.takeWhile Char.isDigit
  !ds.isEmpty && (t.data.drop ds.length).head? = some '.'

/-- Models `trimmedLine.match(/^\d+\.|^-|^\*/)` as a Bool. -/
def isMarkerStart (t : String) : Bool :=
  startsDigitsDot t || jsStartsWith t "-" || jsStartsWith t "*"

/-- Models `trimmedLine.replace(/^\d+\.|^-|^\*/, '')`: remove the first (anchored)
alternative that matches; the alternatives are tried in order. -/
def stripMarker (t : String) : String :=
  if startsDigitsDot t then ⟨t.data.drop ((t.data.takeWhile Char.isDigit).length + 1)⟩
  else if jsStartsWith t "-" then ⟨t.data.drop 1⟩
  else if jsStartsWith t "*" then ⟨t.data.drop 1⟩
  else t

/-- Models `KeyPointExtractorAgent.completeKeyPoint` (keypoint-extractor.agent.ts
lines 233-241): fill defaults by JS `||`; `category` is passed through. -/
def completeKeyPoint (p : RawKeyPoint) : RawKeyPoint :=
  { concept := some (jsOrStr p.concept "Unknown Concept"),
    description := some (jsOrStr p.description "No description available"),
    importance := some (jsOrStr p.importance "medium"),
    category := p.category,
    examples := some (p.examples.getD []) }

/-- The line loop of `parseKeyPointsFromText` (keypoint-extractor.agent.ts
lines 200-228).  `cur` is `currentKeyPoint`; a truthy (non-empty) `concept`
marks an item under construction. -/
def parseKeyPointsLines (cur : RawKeyPoint) (acc : List RawKeyPoint) :
    List String → List RawKeyPoint
  | [] =>
    if jsOrStr cur.concept "" = "" then acc else acc ++ [completeKeyPoint cur]
  | line :: rest =>
    let t := jsTrim line
    if isMarkerStart t && decide (5 < t.length) then
      let acc' := if jsOrStr cur.concept "" = "" then acc
        else acc ++ [completeKeyPoint cur]
      parseKeyPointsLines
        { emptyRawKeyPoint with
          concept := some (jsTrim (stripMarker t))
          importance := some "medium" } acc' rest
    else if decide (10 < t.length) && !(jsOrStr cur.concept "" = "") then
      parseKeyPointsLines
        { cur with description := some ((cur.description.getD "") ++ " " ++ t) }
        acc rest
    else
      parseKeyPointsLines cur acc rest

/-- Models `KeyPointExtractorAgent.parseKeyPointsFromText` (lines 200-228):
split on `'\n'` and run the accumulation loop. -/
def parseKeyPointsFromText (text : String) : List RawKeyPoint :=
  parseKeyPointsLines emptyRawKeyPoint [] (splitLines text)

/-- Tiers 2 and 3 of `parseKeyPointsResponse` (lines 179-189): extract the
first bracketed `[...]` block and parse it (accepting *any* array,
including the `[]` fallback produced when that parse throws), otherwise
fall back to text parsing. -/
def parseKeyPointsTier2 (jp : String → Option JsValue) (responseText : String) :
    List RawKeyPoint :=
  match bracketMatch responseText with
  | some m =>
    match safeJsonParse jp m with
    | .arr items => items
    | .nonArray => parseKeyPointsFromText responseText
  | none => parseKeyPointsFromText responseText

/-- Models `KeyPointExtractorAgent.parseKeyPointsResponse` (lines 171-195).
Tier 1: parse the whole response; accept a non-empty array.  The
surrounding `try`/`catch` of the source is dead code in this model since
every called operation is total. -/
def parseKeyPointsResponse (jp : String → Option JsValue) (responseText : String) :
    List RawKeyPoint :=
  match safeJsonParse jp responseText with
  | .arr items =>
    if 0 < items.length then items else parseKeyPointsTier2 jp responseText
  | .nonArray => parseKeyPointsTier2 jp responseText

/-! ### `validateAndCleanKeyPoints` (lines 246-264) -/

/-- The case-insensitive concept key used by the dedup filter
(`other.concept.toLowerCase()`); after the normalization map the `concept`
is always present, `getD ""` totalizes the access. -/
def conceptKey (kp : RawKeyPoint) : String := strToLower (kp.concept.getD "")

/-- The dedup filter
`arr.filter((kp, index, arr) => arr.findIndex(other => other.concept.toLowerCase() === kp.concept.toLowerCase()) === index)`,
rendered with the running element index made explicit. -/
def keepFirstByConcept (full : List RawKeyPoint) : Nat → List RawKeyPoint →
    List RawKeyPoint
  | _, [] => []
  | i, kp :: rest =>
    if full.findIdx? (fun other => conceptKey other == conceptKey kp) = some i then
      kp :: keepFirstByConcept full (i + 1) rest
    else
      keepFirstByConcept full (i + 1) rest

/-- Models `KeyPointExtractorAgent.validateAndCleanKeyPoints` (lines 246-264):
filter out items with a falsy/blank `concept` or a `description` of trimmed
length ≤ 10, normalize text fields (cleaned, length-capped) and the
`importance` enum, cap to `maxCount`, then drop case-insensitive duplicate
concepts keeping first occurrences. -/
def validateAndCleanKeyPoints (keyPoints : List RawKeyPoint) (maxCount : Nat) :
    List RawKeyPoint :=
  let validKeyPoints :=
    ((keyPoints.filter (fun kp =>
        match kp.concept with
        | some c => decide (0 < (jsTrim c).length)
        | none => false)).filter (fun kp =>
        match kp.description with
        | some d => decide (10 < (jsTrim d).length)
        | none => false)).map (fun kp =>
        { kp with
          concept := some (jsSubstrTo (cleanText (kp.concept.getD "")) 100)
          description := some (jsSubstrTo (cleanText (kp.description.getD "")) 300)
          importance :=
            if kp.importance = some "high" ∨ kp.importance = some "medium"
                ∨ kp.importance = some "low" then
              kp.importance
            else some "medium" })
  let sliced := validKeyPoints.take maxCount
  keepFirstByConcept sliced 0 sliced

/-! ### `doExecute`'s empty-result classification (lines 107-144) -/

/-- The error classification performed by the `catch` block of
`KeyPointExtractorAgent.doExecute` (lines 133-143); the `AgentErrorType`
enum members are the literal strings of src/unnamed/part_008. -/
def classifyKeyPointError (msg : String) : String :=
  if jsIncludes msg "timeout" then "TIMEOUT_ERROR: LLM request timeout"
  else if jsIncludes msg "API" || jsIncludes msg "model" then "LLM_ERROR: " ++ msg
  else if jsIncludes msg "parse" || jsIncludes msg "JSON" then
    "PARSING_ERROR: Failed to parse LLM response"
  else "UNKNOWN_ERROR: " ++ msg

/-- The post-LLM tail of `KeyPointExtractorAgent.doExecute` (lines
119-131): parse the response, validate and clean, and throw — classified by
the same function's `catch` — when nothing valid remains.  The LLM call
itself is external; `responseText` is its response. -/
def keypointDoExecutePost (jp : String → Option JsValue) (maxKeyPoints : Nat)
    (responseText : String) : Except String (List RawKeyPoint) :=
  let keyPoints := parseKeyPointsResponse jp responseText
  let validatedKeyPoints := validateAndCleanKeyPoints keyPoints maxKeyPoints
  if validatedKeyPoints.length = 0 then
    .error (classifyKeyPointError "No valid key points extracted from the document")
  else
    .ok validatedKeyPoints

/-! ## Quiz generator: `QuizAgent` (src/unnamed/part_006, second file)

A raw question as delivered by `JSON.parse` has every field possibly
absent; `points` is a JS number (`typeof === 'number'` is its presence
here, fractional values are irrelevant to the validated shape and modelled
as integers). -/

/-- A quiz question as it appears in the parsed JSON array. -/
structure RawQuizQuestion where
  id : Option String
  type : Option String
  question : Option String
  options : Option (List String)
  correctAnswer : Option String
  explanation : Option String
  difficulty : Option String
  concept : Option String
  points : Option Int
deriving DecidableEq

/-- A normalized `QuizQuestion`. -/
structure QuizQuestion where
  id : String
  type : String
  question : String
  options : List String
  correctAnswer : String
  explanation : String
  difficulty : String
  concept : String
  points : Int
deriving DecidableEq

/-- The default options array `['选项A', '选项B', '选项C', '选项D']`. -/
def defaultOptions : List String := ["选项A", "选项B", "选项C", "选项D"]

/-- The object literal at the top of `QuizAgent.validateAndNormalizeQuestion`
(part_006 lines 783-797): fill defaults (JS `||` semantics), clean text
fields, coerce `difficulty` and `points`. -/
def normalizeQuestionBase (q : RawQuizQuestion) (index : Nat) : QuizQuestion :=
  { id := jsOrStr q.id ("q" ++ toString index)
    type := jsOrStr q.type "multiple_choice"
    question := cleanText (jsOrStr q.question ("题目 " ++ toString index))
    options :=
      match q.options with
      | some l => l.map cleanText
      | none => defaultOptions
    correctAnswer :=
      cleanText (jsOrStr q.correctAnswer
        (jsOrStr (q.options.bind (fun l => l.head?)) "选项A"))
    explanation := cleanText (jsOrStr q.explanation "暂无解释")
    difficulty :=
      match q.difficulty with
      | some d => if d = "easy" ∨ d = "medium" ∨ d = "hard" then d else "medium"
      | none => "medium"
    concept := cleanText (jsOrStr q.concept "基础概念")
    points :=
      match q.points with
      | some p => if 0 < p then p else 1
      | none => 1 }

/-- The `multiple_choice` option-count fixup of
`validateAndNormalizeQuestion` (part_006 lines 800-803): fewer than 2
options are replaced by the four defaults, with `correctAnswer := '选项A'`. -/
def fixMultipleChoice (n : QuizQuestion) : QuizQuestion :=
  if n.type = "multiple_choice" ∧ n.options.length < 2 then
    { n with options := defaultOptions, correctAnswer := "选项A" }
  else n

/-- The `true_false` option fixup (part_006 lines 806-811). -/
def fixTrueFalse (n : QuizQuestion) : QuizQuestion :=
  if n.type = "true_false" then
    let withOpts := { n with options := ["正确", "错误"] }
    if withOpts.correctAnswer = "正确" ∨ withOpts.correctAnswer = "错误" then
      withOpts
    else { withOpts with correctAnswer := "正确" }
  else n

/-- The `fill_blank` fixup (part_006 lines 814-819). -/
def fixFillBlank (n : QuizQuestion) : QuizQuestion :=
  if n.type = "fill_blank" then
    let withOpts : QuizQuestion := { n with options := [] }
    if jsIncludes withOpts.question "_____" then withOpts
    else { withOpts with question := withOpts.question ++ " _____" }
  else n

/-- Models `QuizAgent.validateAndNormalizeQuestion` (part_006 lines 782-822): the
base object literal followed by the three sequential per-type fixup `if`
statements of the source.  Note that for a `multiple_choice` question
whose options array already has ≥ 2 entries the `correctAnswer` is *not*
checked for membership in `options`. -/
def validateAndNormalizeQuestion (q : RawQuizQuestion) (index : Nat) : QuizQuestion :=
  fixFillBlank (fixTrueFalse (fixMultipleChoice (normalizeQuestionBase q index)))

/-- Dedup key of `removeDuplicateQuestions`:
`q.question.toLowerCase().replace(/\s+/g, '')`. -/
def questionKey (q : QuizQuestion) : String :=
  ⟨(strToLower q.question).data.filter (fun c => !isJsWs c)⟩

/-- Models `QuizAgent.removeDuplicateQuestions` (part_006 lines 852-862): the
`seen` set of keys, keeping first occurrences in order. -/
def removeDupAux (seen : List String) : List QuizQuestion → List QuizQuestion
  | [] => []
  | q :: rest =>
    if seen.contains (questionKey q) then removeDupAux seen rest
    else q :: removeDupAux (questionKey q :: seen) rest

/-- Models `QuizAgent.removeDuplicateQuestions`. -/
def removeDuplicateQuestions (questions : List QuizQuestion) : List QuizQuestion :=
  removeDupAux [] questions

/-- Models `QuizAgent.generateFallbackQuestions` (part_006 lines 867-885). -/
def generateFallbackQuestions (count startIndex : Nat) : List QuizQuestion :=
  (List.range count).map (fun i =>
    { id := "q" ++ toString (startIndex + i)
      type := "multiple_choice"
      question := "关于本文档内容，以下哪个说法是正确的？"
      options := defaultOptions
      correctAnswer := "选项A"
      explanation := "请参考文档内容进行理解"
      difficulty := "medium"
      concept := "综合理解"
      points := 1 })

/-- Models `Math.ceil(n * 0.3)`.  The JS expression is evaluated in binary
floating point; for every array length this code can see the double
rounding never crosses an integer boundary, so it coincides with the exact
ceiling of `3n/10`. -/
def jsCeil03 (n : Nat) : Nat := (3 * n + 9) / 10

/-- Models `Math.ceil(n * 0.2)`, as the exact ceiling of `n/5` (same remark). -/
def jsCeil02 (n : Nat) : Nat := (n + 4) / 5

/-- Models `Array.prototype.slice(0, e)` with a possibly negative end index:
a negative `e` counts from the end. -/
def jsSliceTo {α : Type} (l : List α) (e : Int) : List α :=
  if 0 ≤ e then l.take e.toNat else l.take (l.length - (-e).toNat)

/-- Models `QuizAgent.balanceDifficulty` (part_006 lines 890-908): pick quotas of
easy/medium/hard questions (`mediumCount` can be negative, making the
medium slice drop elements from the end), then top up from the questions
not already picked.  `result.includes(q)` compares object references; in
this model it is structural equality, which coincides because the list
contains no structurally identical duplicates in the executor's use. -/
def balanceDifficulty (questions : List QuizQuestion) : List QuizQuestion :=
  let easyCount := jsCeil03 questions.length
  let hardCount := jsCeil02 questions.length
  let mediumCount : Int := (questions.length : Int) - easyCount - hardCount
  let easy := (questions.filter (fun q => q.difficulty == "easy")).take easyCount
  let medium := jsSliceTo (questions.filter (fun q => q.difficulty == "medium")) mediumCount
  let hard := (questions.filter (fun q => q.difficulty == "hard")).take hardCount
  let result := easy ++ medium ++ hard
  if result.length < questions.length then
    result ++ (questions.filter (fun q => !result.contains q)).take
      (questions.length - result.length)
  else result

/-- Models `QuizAgent.optimizeQuestions` (part_006 lines 827-847): dedup, cap to
`targetCount`, pad with fallback questions when short, then rebalance. -/
def optimizeQuestions (questions : List QuizQuestion) (targetCount : Nat) :
    List QuizQuestion :=
  let uniqueQuestions := removeDuplicateQuestions questions
  let result := uniqueQuestions.take targetCount
  let result :=
    if result.length < targetCount then
      result ++ generateFallbackQuestions (targetCount - result.length)
        (result.length + 1)
    else result
  balanceDifficulty result

/-! ## Learning-path planner: `LearningPathAgent` (src/unnamed/part_006, first file) -/

/-- Models `beginner`/`advanced` as normalized by the agents' `validateInput`. -/
inductive UserLevel where
  | beginner
  | advanced
deriving DecidableEq, Repr

/-- A learning step as it appears in the pipeline (fields possibly absent). -/
structure RawLearningStep where
  step : Option String
  time : Option String
  description : Option String
  code : Option String
  prerequisites : Option (List String)
  resources : Option (List String)
deriving DecidableEq

/-- Models `Math.ceil(n * 1.2)` as the exact ceiling of `6n/5` (the double
rounding agrees for every magnitude this code can produce). -/
def jsCeil12 (n : Nat) : Nat := (6 * n + 4) / 5

/-- Models `Math.ceil(n * 0.8)` as the exact ceiling of `4n/5` (same remark). -/
def jsCeil08 (n : Nat) : Nat := (4 * n + 4) / 5

/-- The first run of digits in the string (`time.match(/\d+/)`). -/
def firstDigitRun (s : String) : Option String :=
  let rest := s.data.dropWhile (fun c => !c.isDigit)
  match rest.takeWhile Char.isDigit with
  | [] => none
  | ds => some ⟨ds⟩

/-- Models `parseInt` on a pure digit run. -/
def digitsToNat (s : String) : Nat :=
  s.data.foldl (fun a c => 10 * a + (c.toNat - 48)) 0

/-- Models `LearningPathAgent.normalizeTimeEstimate` (part_006 lines 305-329):
blank or number-free times get a level default; otherwise the first number
is scaled by user level (beginner ×1.2 with floor 30, advanced ×0.8 with
floor 15).  Both branches of the source's final unit conditional emit the
minutes unit `分钟`. -/
def normalizeTimeEstimate (time : Option String) (userLevel : UserLevel) : String :=
  let dflt := if userLevel = .beginner then "45分钟" else "30分钟"
  match time with
  | none => dflt
  | some t =>
    if (jsTrim t).length = 0 then dflt
    else
      match firstDigitRun t with
      | none => dflt
      | some ds =>
        let number := digitsToNat ds
        let adjustedNumber :=
          if userLevel = .beginner then max 30 (jsCeil12 number)
          else max 15 (jsCeil08 number)
        toString adjustedNumber ++ "分钟"

/-- The default steps of `LearningPathAgent.addDefaultSteps` (part_006
lines 334-381): three for beginners, two for advanced users. -/
def defaultLearningSteps (userLevel : UserLevel) : List RawLearningStep :=
  if userLevel = .beginner then
    [ { step := some "环境准备和基础设置", time := some "30分钟",
        description := some "安装必要的开发环境和工具，配置基本设置",
        code := none, prerequisites := some [], resources := some [] },
      { step := some "核心概念理解", time := some "45分钟",
        description := some "学习和理解基础概念，掌握基本原理",
        code := none, prerequisites := some [], resources := some [] },
      { step := some "实践练习", time := some "60分钟",
        description := some "通过实际练习巩固所学知识",
        code := none, prerequisites := some [], resources := some [] } ]
  else
    [ { step := some "高级特性探索", time := some "30分钟",
        description := some "深入了解高级功能和特性",
        code := none, prerequisites := some [], resources := some [] },
      { step := some "最佳实践应用", time := some "45分钟",
        description := some "学习和应用行业最佳实践",
        code := none, prerequisites := some [], resources := some [] } ]

/-- Models `LearningPathAgent.addDefaultSteps`:
`[...existingSteps, ...defaultSteps].slice(0, 8)`. -/
def addDefaultSteps (existingSteps : List RawLearningStep) (userLevel : UserLevel) :
    List RawLearningStep :=
  (existingSteps ++ defaultLearningSteps userLevel).take 8

/-- The filter/normalize chain at the top of `optimizeLearningPath`
(part_006 lines 275-283). -/
def validLearningSteps (steps : List RawLearningStep) (userLevel : UserLevel) :
    List RawLearningStep :=
  ((steps.filter (fun st =>
      match st.step with
      | some s => decide (0 < (jsTrim s).length)
      | none => false)).filter (fun st =>
      match st.description with
      | some d => decide (10 < (jsTrim d).length)
      | none => false)).map (fun st =>
      { st with
        step := some (jsSubstrTo (cleanText (st.step.getD "")) 100)
        description := some (jsSubstrTo (cleanText (st.description.getD "")) 500)
        time := some (normalizeTimeEstimate st.time userLevel) })

/-- The sequence-numbering map at the end of `optimizeLearningPath`
(part_006 lines 294-297), with the running index explicit. -/
def numberLearningSteps (i : Nat) : List RawLearningStep → List RawLearningStep
  | [] => []
  | st :: rest =>
    let s := st.step.getD ""
    { st with
      step := some (if jsStartsWith s (toString (i + 1) ++ ".") then s
        else toString (i + 1) ++ ". " ++ s) } :: numberLearningSteps (i + 1) rest

/-- Models `LearningPathAgent.optimizeLearningPath` (part_006 lines 274-300):
filter/normalize, cap at 8 or pad below 3 with default steps, then prefix
sequence numbers. -/
def optimizeLearningPath (steps : List RawLearningStep) (userLevel : UserLevel) :
    List RawLearningStep :=
  let optimizedSteps := validLearningSteps steps userLevel
  let optimizedSteps :=
    if 8 < optimizedSteps.length then optimizedSteps.take 8
    else if optimizedSteps.length < 3 then addDefaultSteps optimizedSteps userLevel
    else optimizedSteps
  numberLearningSteps 0 optimizedSteps

/-! # Theorems -/

/-! ## Claim C1: retry bound of the Agent Contract -/

/-- When every attempt fails, the retry loop runs to `maxRetries`,
recording one backoff of `1000 * a` after each attempt `a < maxRetries`
and keeping the last failure's message. -/
theorem attemptLoop_allFail {α : Type} (doExec : Nat → Except String α)
    (errs : Nat → String) (h : ∀ n, doExec n = .error (errs n)) (maxRetries : Nat) :
    ∀ k attempt lastErr delays calls, maxRetries - attempt = k →
    attempt ≤ maxRetries →
    attemptLoop doExec maxRetries attempt lastErr delays calls =
      ⟨.failed (some (errs maxRetries)),
        delays ++ (List.range' attempt (maxRetries - attempt)).map (fun a => 1000 * a),
        calls + (maxRetries + 1 - attempt)⟩ := by
  intro k
  induction k with
  | zero =>
    intro attempt lastErr delays calls hk hle
    have ha : attempt = maxRetries := Nat.le_antisymm hle (Nat.le_of_sub_eq_zero hk)
    subst ha
    rw [attemptLoop, if_neg (Nat.lt_irrefl attempt), h attempt]
    simp only
    rw [attemptLoop, if_pos (Nat.lt_succ_self attempt)]
    simp [Nat.sub_self]
  | succ k ih =>
    intro attempt lastErr delays calls hk hle
    have hlt : attempt < maxRetries := by omega
    rw [attemptLoop, if_neg (Nat.not_lt.mpr hle), h attempt]
    simp only [if_pos hlt]
    rw [ih (attempt + 1) (some (errs attempt)) (delays ++ [1000 * attempt])
      (calls + 1) (by omega) (by omega)]
    have hsplit : maxRetries - attempt = (maxRetries - (attempt + 1)) + 1 := by omega
    rw [hsplit, List.range'_succ]
    simp [List.append_assoc]
    omega

/-- Claim C1 (amended): for every agent name and every configured
`maxRetries = N` with `N ≥ 1`, if every attempt of `doExecute` fails then
`execute` performs exactly `N` attempts, no more, no fewer, waits the
increasing backoffs `1000 * a` (attempt × base delay) for `a = 1, …, N-1`
between attempts, and returns `success: false` with an error containing the
last failure's message (the attempt-`N` error), ending in status `error`.
(The original claim without the `N ≥ 1` restriction fails at `N = 0`, where
the source's `this.config.maxRetries || 3` fallback silently restores the
default 3 — see the counterexample.) -/
theorem execute_retryBound {α : Type} (agentName : String) (N : Nat)
    (errs : Nat → String) (hN : 1 ≤ N) :
    BaseAgent.execute (α := α) agentName N true (fun a => .error (errs a)) =
      { success := false, data := none,
        error := some ("Agent " ++ agentName ++ " failed after " ++ toString N
          ++ " attempts: " ++ errs N),
        attemptsMade := N,
        delays := (List.range' 1 (N - 1)).map (fun a => 1000 * a),
        status := .error } := by
  have hN0 : ¬ (N = 0) := by omega
  have hloop := attemptLoop_allFail (α := α) (fun a => .error (errs a)) errs
    (fun _ => rfl) N (N - 1) 1 none [] 0 (by omega) (by omega)
  unfold BaseAgent.execute
  simp [hloop, hN0]

/-- Witness for C1 at `N = 2`: two attempts, one backoff of 1000 ms,
failure message carrying the second attempt's error. -/
theorem execute_retryBound_witness :
    (1 ≤ 2) ∧
    BaseAgent.execute (α := Unit) "TestAgent" 2 true
        (fun a => .error ("fail" ++ toString a)) =
      { success := false, data := none,
        error := some ("Agent " ++ "TestAgent" ++ " failed after " ++ toString 2
          ++ " attempts: " ++ ("fail" ++ toString 2)),
        attemptsMade := 2,
        delays := (List.range' 1 (2 - 1)).map (fun a => 1000 * a),
        status := .error } :=
  ⟨by omega,
    execute_retryBound "TestAgent" 2 (fun a => "fail" ++ toString a) (by omega)⟩

/-- Counterexample to C1 as stated: an agent configured with
`maxRetries = 0` whose attempts all fail performs 3 attempts, not 0 —
`this.config.maxRetries || 3` treats the configured 0 as falsy. -/
theorem execute_zeroRetries_counterexample :
    (BaseAgent.execute (α := Unit) "TestAgent" 0 true
      (fun _ => .error "boom")).attemptsMade = 3 ∧ (3 : Nat) ≠ 0 := by
  have hloop := attemptLoop_allFail (α := Unit) (fun _ => .error "boom")
    (fun _ => "boom") (fun _ => rfl) 3 2 1 none [] 0 (by omega) (by omega)
  constructor
  · unfold BaseAgent.execute
    simp [hloop]
  · omega

/-! ## Workflow executor lemmas -/

/-- Lemma: `checkDependencies` is membership of every declared dependency. -/
theorem checkDependencies_iff {st : WStep} {c : List String} :
    checkDependencies st c = true ↔ ∀ d ∈ st.deps, d ∈ c := by
  simp [checkDependencies, List.contains, List.all_eq_true]

/-- Lemma: `execStepMerged` only ever appends to `errors`. -/
theorem execStepMerged_errors_mono (rt : StepRunner) (t : String) (s : WState) :
    ∀ e ∈ s.errors, e ∈ (execStepMerged rt t s).errors := by
  intro e he
  unfold execStepMerged
  cases rt t s with
  | ok v => cases v with | mk upd cur => simpa using he
  | error msg => simp [he]

/-- Steps still pending after a round were pending before it. -/
theorem roundScan_pending_subset (rt : StepRunner) (c : List String) (s : WState) :
    ∀ l st, st ∈ (roundScan rt c s l).pending → st ∈ l := by
  intro l
  induction l with
  | nil => simp [roundScan]
  | cons hd rest ih =>
    intro st hst
    simp only [roundScan] at hst
    by_cases hrun : (checkDependencies hd (roundScan rt c s rest).completed
        && checkCondition hd (roundScan rt c s rest).state) = true
    · rw [if_pos hrun] at hst
      exact List.mem_cons_of_mem hd (ih st hst)
    · rw [if_neg hrun] at hst
      rcases List.mem_cons.mp hst with h | h
      · exact h ▸ List.mem_cons_self hd rest
      · exact List.mem_cons_of_mem hd (ih st h)

/-- Completed-step ids only grow during a round. -/
theorem roundScan_completed_mono (rt : StepRunner) (c : List String) (s : WState) :
    ∀ l x, x ∈ c → x ∈ (roundScan rt c s l).completed := by
  intro l
  induction l with
  | nil => simp [roundScan]
  | cons hd rest ih =>
    intro x hx
    simp only [roundScan]
    by_cases hrun : (checkDependencies hd (roundScan rt c s rest).completed
        && checkCondition hd (roundScan rt c s rest).state) = true
    · rw [if_pos hrun]
      exact List.mem_cons_of_mem hd.id (ih x hx)
    · rw [if_neg hrun]
      exact ih x hx

/-- Recorded errors only grow during a round. -/
theorem roundScan_errors_mono (rt : StepRunner) (c : List String) (s : WState) :
    ∀ l e, e ∈ s.errors → e ∈ (roundScan rt c s l).state.errors := by
  intro l
  induction l with
  | nil => simp [roundScan]
  | cons hd rest ih =>
    intro e he
    simp only [roundScan]
    by_cases hrun : (checkDependencies hd (roundScan rt c s rest).completed
        && checkCondition hd (roundScan rt c s rest).state) = true
    · rw [if_pos hrun]
      exact execStepMerged_errors_mono rt hd.type _ e (ih e he)
    · rw [if_neg hrun]
      exact ih e he

/-- A round never adds pending steps. -/
theorem roundScan_length_le (rt : StepRunner) (c : List String) (s : WState) :
    ∀ l, (roundScan rt c s l).pending.length ≤ l.length := by
  intro l
  induction l with
  | nil => simp [roundScan]
  | cons hd rest ih =>
    simp only [roundScan]
    by_cases hrun : (checkDependencies hd (roundScan rt c s rest).completed
        && checkCondition hd (roundScan rt c s rest).state) = true
    · rw [if_pos hrun]
      exact Nat.le_succ_of_le ih
    · rw [if_neg hrun]
      simpa using ih

/-- A round that reports progress removed at least one pending step. -/
theorem roundScan_progress_lt (rt : StepRunner) (c : List String) (s : WState) :
    ∀ l, (roundScan rt c s l).progress = true →
    (roundScan rt c s l).pending.length < l.length := by
  intro l
  induction l with
  | nil => simp [roundScan]
  | cons hd rest ih =>
    intro hp
    simp only [roundScan] at hp ⊢
    by_cases hrun : (checkDependencies hd (roundScan rt c s rest).completed
        && checkCondition hd (roundScan rt c s rest).state) = true
    · rw [if_pos hrun]
      exact Nat.lt_succ_of_le (roundScan_length_le rt c s rest)
    · rw [if_neg hrun] at hp ⊢
      simpa using ih hp

/-- A step whose dependencies are all completed before the round and whose
condition holds in every state is executed by the round (it never survives
in the pending list). -/
theorem roundScan_runs_ready (rt : StepRunner) :
    ∀ (l : List WStep) (c : List String) (s : WState) (t : WStep),
    t ∈ l → checkDependencies t c = true →
    (∀ ws, checkCondition t ws = true) →
    t ∉ (roundScan rt c s l).pending := by
  intro l
  induction l with
  | nil => simp [roundScan]
  | cons hd rest ih =>
    intro c s t ht hdep hcond hmem
    simp only [roundScan] at hmem
    by_cases hrun : (checkDependencies hd (roundScan rt c s rest).completed
        && checkCondition hd (roundScan rt c s rest).state) = true
    · rw [if_pos hrun] at hmem
      exact ih c s t (roundScan_pending_subset rt c s rest t hmem) hdep hcond hmem
    · rw [if_neg hrun] at hmem
      rcases List.mem_cons.mp hmem with h | h
      · subst h
        apply hrun
        rw [Bool.and_eq_true]
        refine ⟨?_, hcond _⟩
        rw [checkDependencies_iff] at hdep ⊢
        exact fun d hd' => roundScan_completed_mono rt c s rest d (hdep d hd')
      · exact ih c s t (roundScan_pending_subset rt c s rest t h) hdep hcond h

/-- Decomposition of a round over an appended pending list: the right
block (scanned first, since the source iterates from the back) runs in the
initial environment and the left block continues from its results. -/
theorem roundScan_append (rt : StepRunner) (c : List String) (s : WState)
    (xs ys : List WStep) :
    roundScan rt c s (xs ++ ys) =
      ⟨(roundScan rt (roundScan rt c s ys).completed (roundScan rt c s ys).state
          xs).pending ++ (roundScan rt c s ys).pending,
        (roundScan rt (roundScan rt c s ys).completed (roundScan rt c s ys).state
          xs).completed,
        (roundScan rt (roundScan rt c s ys).completed (roundScan rt c s ys).state
          xs).state,
        (roundScan rt c s ys).progress
          || (roundScan rt (roundScan rt c s ys).completed
              (roundScan rt c s ys).state xs).progress,
        (roundScan rt c s ys).trace
          ++ (roundScan rt (roundScan rt c s ys).completed
              (roundScan rt c s ys).state xs).trace⟩ := by
  induction xs with
  | nil => simp [roundScan]
  | cons x xs ih =>
    simp only [List.cons_append, roundScan, List.append_eq, ih]
    by_cases hrun : (checkDependencies x
        (roundScan rt (roundScan rt c s ys).completed (roundScan rt c s ys).state
          xs).completed
      && checkCondition x
        (roundScan rt (roundScan rt c s ys).completed (roundScan rt c s ys).state
          xs).state) = true
    · rw [if_pos hrun, if_pos hrun]
      simp [List.append_assoc]
    · rw [if_neg hrun, if_neg hrun]
      simp

/-- Cycle invariant for a single round: when every completed id is outside
the cycle set `C` and every pending step with id in `C` depends on some id
in `C`, the round completes no id of `C` and keeps every `C`-step pending. -/
theorem roundScan_cycle_inv (rt : StepRunner) (C : List String) :
    ∀ (l : List WStep) (c : List String) (s : WState),
    (∀ x ∈ c, x ∉ C) →
    (∀ st, st ∈ l → st.id ∈ C → ∃ d ∈ st.deps, d ∈ C) →
    (∀ x ∈ (roundScan rt c s l).completed, x ∉ C) ∧
    (∀ st, st ∈ l → st.id ∈ C → st ∈ (roundScan rt c s l).pending) := by
  intro l
  induction l with
  | nil =>
    intro c s hc _
    simpa [roundScan] using hc
  | cons hd rest ih =>
    intro c s hc hcyc
    obtain ⟨ihc, ihp⟩ := ih c s hc
      (fun st hst => hcyc st (List.mem_cons_of_mem hd hst))
    simp only [roundScan]
    by_cases hrun : (checkDependencies hd (roundScan rt c s rest).completed
        && checkCondition hd (roundScan rt c s rest).state) = true
    · have hidC : hd.id ∉ C := by
        intro hmem
        obtain ⟨d, hdd, hdC⟩ := hcyc hd (List.mem_cons_self hd rest) hmem
        have hdep := (Bool.and_eq_true _ _).mp hrun |>.1
        rw [checkDependencies_iff] at hdep
        exact ihc d (hdep d hdd) hdC
      rw [if_pos hrun]
      constructor
      · intro x hx
        rcases List.mem_cons.mp hx with h | h
        · exact h ▸ hidC
        · exact ihc x h
      · intro st hst hstC
        rcases List.mem_cons.mp hst with h | h
        · exact absurd (h ▸ hstC) hidC
        · exact ihp st h hstC
    · rw [if_neg hrun]
      refine ⟨ihc, ?_⟩
      intro st hst hstC
      rcases List.mem_cons.mp hst with h | h
      · exact h ▸ List.mem_cons_self hd _
      · exact List.mem_cons_of_mem hd (ihp st h hstC)

/-- Driving the cycle invariant through the rounds: the loop exits via the
stall branch, leaving the cycle's steps pending and the stall error
recorded. -/
theorem workflowLoop_cycle (rt : StepRunner) (C : List String) :
    ∀ (fuel : Nat) (pending : List WStep) (c : List String) (s : WState),
    pending.length < fuel →
    (∀ x ∈ c, x ∉ C) →
    (∀ st, st ∈ pending → st.id ∈ C → ∃ d ∈ st.deps, d ∈ C) →
    (∃ st, st ∈ pending ∧ st.id ∈ C) →
    (workflowLoop rt fuel pending c s).1 ≠ [] ∧
    stallMsg ∈ (workflowLoop rt fuel pending c s).2.errors := by
  intro fuel
  induction fuel with
  | zero =>
    intro pending c s hf
    exact absurd hf (Nat.not_lt_zero _)
  | succ fuel ih =>
    intro pending c s hf hc hcyc hex
    obtain ⟨st, hstp, hstC⟩ := hex
    have hpne : pending ≠ [] := List.ne_nil_of_mem hstp
    simp only [workflowLoop]
    rw [if_neg (by simpa [List.isEmpty_iff] using hpne)]
    obtain ⟨rc, rp⟩ := roundScan_cycle_inv rt C pending c s hc hcyc
    by_cases hprog : (roundScan rt c s pending).progress = true
    · rw [if_pos hprog]
      refine ih _ _ _ ?_ rc ?_ ⟨st, rp st hstp hstC, hstC⟩
      · have := roundScan_progress_lt rt c s pending hprog
        omega
      · intro st' hst' hC
        exact hcyc st' (roundScan_pending_subset rt c s pending st' hst') hC
    · rw [if_neg hprog]
      exact ⟨List.ne_nil_of_mem (rp st hstp hstC), by simp⟩

/-! ## Claim C3: termination and stall reporting on cyclic dependencies -/

/-- Claim C3: for every step graph containing a dependency cycle — a set
`C` of step ids such that some pending step's id lies in `C` and every
step whose id lies in `C` declares a dependency in `C` — `executeWorkflow`
terminates (it is a total function, and the stall branch, not the fuel
bound, produces the result: the stall error below is appended only by that
branch), records the stall error mentioning possible circular dependencies
or unmet conditions in `errors[]`, and returns the state with
`completed = false`. -/
theorem executeWorkflow_cycle_stalls (rt : StepRunner) (steps : List WStep)
    (initFields : List (String × String)) (sessionId : String) (C : List String)
    (hcyc : ∀ st ∈ steps, st.id ∈ C → ∃ d ∈ st.deps, d ∈ C)
    (hex : ∃ st ∈ steps, st.id ∈ C) :
    (executeWorkflow rt steps initFields sessionId).completed = false ∧
    stallMsg ∈ (executeWorkflow rt steps initFields sessionId).errors := by
  obtain ⟨hne, hstall⟩ := workflowLoop_cycle rt C (steps.length + 1) steps []
    (initWState initFields sessionId) (by omega) (by simp)
    (fun st hst => hcyc st hst) (by simpa using hex)
  unfold executeWorkflow
  refine ⟨?_, hstall⟩
  simp [List.isEmpty_iff, hne]

/-- Witness for C3: the two-step cycle `a ↔ b` stalls. -/
theorem executeWorkflow_cycle_stalls_witness :
    (∀ st ∈ ([⟨"a", "ta", ["b"], none⟩, ⟨"b", "tb", ["a"], none⟩] : List WStep),
      st.id ∈ ["a", "b"] → ∃ d ∈ st.deps, d ∈ ["a", "b"]) ∧
    (∃ st ∈ ([⟨"a", "ta", ["b"], none⟩, ⟨"b", "tb", ["a"], none⟩] : List WStep),
      st.id ∈ ["a", "b"]) ∧
    ((executeWorkflow (fun t _ => .ok ([], t))
        [⟨"a", "ta", ["b"], none⟩, ⟨"b", "tb", ["a"], none⟩] [] "s").completed = false ∧
      stallMsg ∈ (executeWorkflow (fun t _ => .ok ([], t))
        [⟨"a", "ta", ["b"], none⟩, ⟨"b", "tb", ["a"], none⟩] [] "s").errors) := by
  refine ⟨?_, ?_, ?_⟩
  · intro st hst
    rcases List.mem_cons.mp hst with h | h
    · subst h; intro _; exact ⟨"b", by simp⟩
    · rcases List.mem_cons.mp h with h' | h'
      · subst h'; intro _; exact ⟨"a", by simp⟩
      · simp at h'
  · exact ⟨⟨"a", "ta", ["b"], none⟩, by simp, by simp⟩
  · refine executeWorkflow_cycle_stalls (fun t _ => .ok ([], t))
      [⟨"a", "ta", ["b"], none⟩, ⟨"b", "tb", ["a"], none⟩] [] "s" ["a", "b"] ?_ ?_
    · intro st hst
      rcases List.mem_cons.mp hst with h | h
      · subst h; intro _; exact ⟨"b", by simp⟩
      · rcases List.mem_cons.mp h with h' | h'
        · subst h'; intro _; exact ⟨"a", by simp⟩
        · simp at h'
    · exact ⟨⟨"a", "ta", ["b"], none⟩, by simp, by simp⟩

/-! ## Claim C4: a failing step does not abort the scheduler -/

/-- Claim C4: in any round, consider a pending list `pre ++ s :: post`
where — after the scan has processed the later-declared block `post` — the
step `s` is runnable and its agent invocation fails (throws) with message
`msg`.  Then the failure is caught: the round records
`"Step <type> failed: <msg>"` in `errors[]`, still marks `s` completed for
dependency purposes, reports progress, and any still-pending step all of
whose dependencies are then completed and whose condition always holds
(e.g. a dependent of `s` with no other unmet dependencies and no
condition) is executed by the following round. -/
theorem roundScan_failedStep_isolated (rt : StepRunner) (pre post : List WStep)
    (s : WStep) (c : List String) (st0 : WState) (msg : String)
    (hdep : checkDependencies s (roundScan rt c st0 post).completed = true)
    (hcond : checkCondition s (roundScan rt c st0 post).state = true)
    (hrun : rt s.type (roundScan rt c st0 post).state = .error msg) :
    ("Step " ++ s.type ++ " failed: " ++ msg)
      ∈ (roundScan rt c st0 (pre ++ s :: post)).state.errors
    ∧ s.id ∈ (roundScan rt c st0 (pre ++ s :: post)).completed
    ∧ (roundScan rt c st0 (pre ++ s :: post)).progress = true
    ∧ ∀ t ∈ (roundScan rt c st0 (pre ++ s :: post)).pending,
        checkDependencies t (roundScan rt c st0 (pre ++ s :: post)).completed = true →
        (∀ ws, checkCondition t ws = true) →
        t ∉ (roundScan rt (roundScan rt c st0 (pre ++ s :: post)).completed
              (roundScan rt c st0 (pre ++ s :: post)).state
              (roundScan rt c st0 (pre ++ s :: post)).pending).pending := by
  have hsp : roundScan rt c st0 (s :: post) =
      ⟨(roundScan rt c st0 post).pending,
        s.id :: (roundScan rt c st0 post).completed,
        { (roundScan rt c st0 post).state with
            errors := (roundScan rt c st0 post).state.errors
              ++ ["Step " ++ s.type ++ " failed: " ++ msg] },
        true,
        (roundScan rt c st0 post).trace ++ [s.id]⟩ := by
    simp only [roundScan]
    rw [if_pos (by rw [Bool.and_eq_true]; exact ⟨hdep, hcond⟩)]
    unfold execStepMerged
    rw [hrun]
  have happ := roundScan_append rt c st0 pre (s :: post)
  rw [hsp] at happ
  refine ⟨?_, ?_, ?_, ?_⟩
  · rw [happ]
    exact roundScan_errors_mono rt _ _ pre _ (by simp)
  · rw [happ]
    exact roundScan_completed_mono rt _ _ pre s.id (by simp)
  · rw [happ]
    simp
  · intro t ht hdept hcondt
    exact roundScan_runs_ready rt _ _ _ t ht hdept hcondt

/-- Witness for C4: step `a` (type `ta`) fails with `boom`; its dependent
`b` (declared after it, hence scanned before it) is still pending after
the round, and the next round executes it. -/
theorem roundScan_failedStep_isolated_witness :
    (checkDependencies ⟨"a", "ta", [], none⟩
        (roundScan (fun t _ => if t == "ta" then .error "boom" else .ok ([], t))
          [] (initWState [] "s") [⟨"b", "tb", ["a"], none⟩]).completed = true) ∧
    (checkCondition ⟨"a", "ta", [], none⟩
        (roundScan (fun t _ => if t == "ta" then .error "boom" else .ok ([], t))
          [] (initWState [] "s") [⟨"b", "tb", ["a"], none⟩]).state = true) ∧
    ((fun t _ => if t == "ta" then .error "boom" else .ok ([], t) : StepRunner) "ta"
        (roundScan (fun t _ => if t == "ta" then .error "boom" else .ok ([], t))
          [] (initWState [] "s") [⟨"b", "tb", ["a"], none⟩]).state = .error "boom") ∧
    (("Step " ++ "ta" ++ " failed: " ++ "boom")
        ∈ (roundScan (fun t _ => if t == "ta" then .error "boom" else .ok ([], t))
          [] (initWState [] "s")
          ([] ++ (⟨"a", "ta", [], none⟩ : WStep) :: [⟨"b", "tb", ["a"], none⟩])).state.errors
      ∧ "a" ∈ (roundScan (fun t _ => if t == "ta" then .error "boom" else .ok ([], t))
          [] (initWState [] "s")
          ([] ++ (⟨"a", "ta", [], none⟩ : WStep) :: [⟨"b", "tb", ["a"], none⟩])).completed
      ∧ (roundScan (fun t _ => if t == "ta" then .error "boom" else .ok ([], t))
          [] (initWState [] "s")
          ([] ++ (⟨"a", "ta", [], none⟩ : WStep) :: [⟨"b", "tb", ["a"], none⟩])).progress = true
      ∧ ∀ t ∈ (roundScan (fun t _ => if t == "ta" then .error "boom" else .ok ([], t))
            [] (initWState [] "s")
            ([] ++ (⟨"a", "ta", [], none⟩ : WStep) :: [⟨"b", "tb", ["a"], none⟩])).pending,
          checkDependencies t (roundScan (fun t _ => if t == "ta" then .error "boom" else .ok ([], t))
            [] (initWState [] "s")
            ([] ++ (⟨"a", "ta", [], none⟩ : WStep) :: [⟨"b", "tb", ["a"], none⟩])).completed = true →
          (∀ ws, checkCondition t ws = true) →
          t ∉ (roundScan (fun t _ => if t == "ta" then .error "boom" else .ok ([], t))
                (roundScan (fun t _ => if t == "ta" then .error "boom" else .ok ([], t))
                  [] (initWState [] "s")
                  ([] ++ (⟨"a", "ta", [], none⟩ : WStep) :: [⟨"b", "tb", ["a"], none⟩])).completed
                (roundScan (fun t _ => if t == "ta" then .error "boom" else .ok ([], t))
                  [] (initWState [] "s")
                  ([] ++ (⟨"a", "ta", [], none⟩ : WStep) :: [⟨"b", "tb", ["a"], none⟩])).state
                (roundScan (fun t _ => if t == "ta" then .error "boom" else .ok ([], t))
                  [] (initWState [] "s")
                  ([] ++ (⟨"a", "ta", [], none⟩ : WStep) :: [⟨"b", "tb", ["a"], none⟩])).pending).pending) := by
  refine ⟨by rfl, by rfl, by rfl, ?_⟩
  exact roundScan_failedStep_isolated
    (fun t _ => if t == "ta" then .error "boom" else .ok ([], t))
    [] [⟨"b", "tb", ["a"], none⟩] ⟨"a", "ta", [], none⟩ [] (initWState [] "s")
    "boom" (by rfl) (by rfl) (by rfl)

/-! ## Claim C9: in-round execution order and immediate state merge -/

/-- Sequential composition of the left-to-right scanner over appended
lists. -/
theorem seqScan_append (rt : StepRunner) :
    ∀ (xs ys : List WStep) (c : List String) (s : WState),
    seqScan rt c s (xs ++ ys) =
      ⟨(seqScan rt c s xs).pending
          ++ (seqScan rt (seqScan rt c s xs).completed (seqScan rt c s xs).state
              ys).pending,
        (seqScan rt (seqScan rt c s xs).completed (seqScan rt c s xs).state
          ys).completed,
        (seqScan rt (seqScan rt c s xs).completed (seqScan rt c s xs).state ys).state,
        (seqScan rt c s xs).progress
          || (seqScan rt (seqScan rt c s xs).completed (seqScan rt c s xs).state
              ys).progress,
        (seqScan rt c s xs).trace
          ++ (seqScan rt (seqScan rt c s xs).completed (seqScan rt c s xs).state
              ys).trace⟩ := by
  intro xs
  induction xs with
  | nil => intro ys c s; simp [seqScan]
  | cons x xs ih =>
    intro ys c s
    simp only [List.cons_append, seqScan]
    by_cases hrun : (checkDependencies x c && checkCondition x s) = true
    · rw [if_pos hrun, if_pos hrun]
      simp [ih]
    · rw [if_neg hrun, if_neg hrun]
      simp [ih]

/-- Claim C9 (amended): a round of `executeWorkflow` is exactly the
left-to-right immediate-merge scanner `seqScan` run on the *reversed*
pending list: the runnable steps are executed in reverse declaration order
(the source's scan runs from the last pending step to the first), each
step's partial-state result is merged into the shared state before the
next step of the scan is examined (so steps processed later in the round —
i.e. declared earlier — observe it), and the steps left pending keep their
declaration order. -/
theorem roundScan_eq_seqScan_reverse (rt : StepRunner) :
    ∀ (l : List WStep) (c : List String) (s : WState),
    roundScan rt c s l =
      ⟨(seqScan rt c s l.reverse).pending.reverse,
        (seqScan rt c s l.reverse).completed,
        (seqScan rt c s l.reverse).state,
        (seqScan rt c s l.reverse).progress,
        (seqScan rt c s l.reverse).trace⟩ := by
  intro l
  induction l with
  | nil => intro c s; simp [roundScan, seqScan]
  | cons hd rest ih =>
    intro c s
    have hrev : (hd :: rest).reverse = rest.reverse ++ [hd] := by simp
    rw [hrev, seqScan_append rt rest.reverse [hd] c s]
    simp only [roundScan, ih]
    by_cases hrun : (checkDependencies hd (seqScan rt c s rest.reverse).completed
        && checkCondition hd (seqScan rt c s rest.reverse).state) = true
    · rw [if_pos hrun]
      simp only [seqScan]
      rw [if_pos hrun]
      simp [seqScan]
    · rw [if_neg hrun]
      simp only [seqScan]
      rw [if_neg hrun]
      simp [seqScan]

/-- Counterexample to C9 as stated: two independent steps declared in the
order `a`, `b` are executed in the order `b`, `a` within the round — the
scan is in *reverse* declaration order, not declaration order. -/
theorem roundScan_declarationOrder_counterexample :
    (roundScan (fun t _ => .ok ([], t)) [] (initWState [] "s")
      [⟨"a", "ta", [], none⟩, ⟨"b", "tb", [], none⟩]).trace = ["b", "a"]
    ∧ (["b", "a"] : List String) ≠ ["a", "b"] := by
  exact ⟨rfl, by decide⟩

/-! ## Claim C10: the final `completed` flag -/

/-- Claim C10: the state returned by `executeWorkflow` has
`completed = true` exactly when the loop finished with no pending steps
and an empty `errors[]`; consequently any recorded error — e.g. a step
failure whose dependents were unblocked and succeeded — forces
`completed = false`. -/
theorem executeWorkflow_completed_iff (rt : StepRunner) (steps : List WStep)
    (initFields : List (String × String)) (sessionId : String) :
    ((executeWorkflow rt steps initFields sessionId).completed = true ↔
      ((workflowLoop rt (steps.length + 1) steps []
          (initWState initFields sessionId)).1 = []
        ∧ (workflowLoop rt (steps.length + 1) steps []
            (initWState initFields sessionId)).2.errors = []))
    ∧ ((workflowLoop rt (steps.length + 1) steps []
          (initWState initFields sessionId)).2.errors ≠ [] →
        (executeWorkflow rt steps initFields sessionId).completed = false) := by
  constructor
  · unfold executeWorkflow
    simp [List.isEmpty_iff]
  · intro hne
    unfold executeWorkflow
    simp [List.isEmpty_iff, hne]

/-- Witness for C10: step `a` fails, its dependent `b` is unblocked and
succeeds, yet the final state has `completed = false` because the failure
remains in `errors[]`. -/
theorem executeWorkflow_completed_iff_witness :
    ((workflowLoop (fun t _ => if t == "ta" then .error "boom" else .ok ([], t))
        (([⟨"a", "ta", [], none⟩, ⟨"b", "tb", ["a"], none⟩] : List WStep).length + 1)
        [⟨"a", "ta", [], none⟩, ⟨"b", "tb", ["a"], none⟩] []
        (initWState [] "s")).2.errors ≠ []) ∧
    (executeWorkflow (fun t _ => if t == "ta" then .error "boom" else .ok ([], t))
      [⟨"a", "ta", [], none⟩, ⟨"b", "tb", ["a"], none⟩] [] "s").completed = false := by
  refine ⟨by decide, ?_⟩
  exact (executeWorkflow_completed_iff
    (fun t _ => if t == "ta" then .error "boom" else .ok ([], t))
    [⟨"a", "ta", [], none⟩, ⟨"b", "tb", ["a"], none⟩] [] "s").2 (by decide)

/-! ## Claim C2: three-tier structured output recovery never throws -/

/-- Claim C2: for every `JSON.parse` behaviour and every response text,
`parseKeyPointsResponse` totally returns a (possibly empty) list of key
points — in this embedding it is a total function into `List RawKeyPoint`,
and each tier (`safeJsonParse`, the bracket extraction, and the line
heuristic) is itself total — and the tiers are tried strictly in order:
(1) whole-text JSON parsing, accepted when it yields a non-empty array;
(2) parsing the first bracketed `[...{...}...]` substring, accepted when it
yields any array; (3) line-oriented heuristic parsing. -/
theorem parseKeyPointsResponse_tiers (jp : String → Option JsValue) (s : String) :
    (∀ items, jp s = some (.arr items) → items ≠ [] →
      parseKeyPointsResponse jp s = items)
    ∧ ((∀ items, safeJsonParse jp s = .arr items → items = []) →
      ∀ m items, bracketMatch s = some m → safeJsonParse jp m = .arr items →
        parseKeyPointsResponse jp s = items)
    ∧ ((∀ items, safeJsonParse jp s = .arr items → items = []) →
      (bracketMatch s = none ∨
        ∃ m, bracketMatch s = some m ∧ safeJsonParse jp m = .nonArray) →
      parseKeyPointsResponse jp s = parseKeyPointsFromText s) := by
  refine ⟨?_, ?_, ?_⟩
  · intro items hjp hne
    have hlen : 0 < items.length := List.length_pos.mpr hne
    simp [parseKeyPointsResponse, safeJsonParse, hjp, hlen]
  · intro h1 m items hbm hm
    unfold parseKeyPointsResponse parseKeyPointsTier2
    cases hsp : safeJsonParse jp s with
    | arr its =>
      have : its = [] := h1 its hsp
      subst this
      simp [hbm, hm]
    | nonArray => simp [hbm, hm]
  · intro h1 h2
    unfold parseKeyPointsResponse parseKeyPointsTier2
    have htier2 :
        (match bracketMatch s with
          | some m =>
            match safeJsonParse jp m with
            | .arr items => items
            | .nonArray => parseKeyPointsFromText s
          | none => parseKeyPointsFromText s) = parseKeyPointsFromText s := by
      rcases h2 with hnone | ⟨m, hm, hna⟩
      · rw [hnone]
      · simp [hm, hna]
    cases hsp : safeJsonParse jp s with
    | arr its =>
      have : its = [] := h1 its hsp
      subst this
      simpa using htier2
    | nonArray => simpa using htier2

/-- Witness for C2: a parser that always throws and a bracket-free prose
response fall through to the line-heuristic tier. -/
theorem parseKeyPointsResponse_tiers_witness :
    (∀ items, safeJsonParse (fun _ => none) "plain prose with no structure at all"
        = .arr items → items = [])
    ∧ bracketMatch "plain prose with no structure at all" = none
    ∧ parseKeyPointsResponse (fun _ => none) "plain prose with no structure at all"
        = parseKeyPointsFromText "plain prose with no structure at all" := by
  have h1 : ∀ items, safeJsonParse (fun _ => none)
      "plain prose with no structure at all" = .arr items → items = [] := by
    intro items h
    simp [safeJsonParse] at h
    exact h
  refine ⟨h1, by decide, ?_⟩
  exact (parseKeyPointsResponse_tiers (fun _ => none)
    "plain prose with no structure at all").2.2 h1 (Or.inl (by decide))

/-! ## Claim C7: validated key points are deduplicated and bounded -/

/-- Every element kept by the dedup filter has its first matching index at
or beyond the running index. -/
theorem keepFirstByConcept_mem_findIdx (full : List RawKeyPoint) :
    ∀ (l : List RawKeyPoint) (i : Nat) (y : RawKeyPoint),
    y ∈ keepFirstByConcept full i l →
    ∃ j, i ≤ j ∧ full.findIdx? (fun o => conceptKey o == conceptKey y) = some j := by
  intro l
  induction l with
  | nil => simp [keepFirstByConcept]
  | cons kp rest ih =>
    intro i y hy
    by_cases hidx : full.findIdx? (fun o => conceptKey o == conceptKey kp) = some i
    · rw [keepFirstByConcept, if_pos hidx] at hy
      rcases List.mem_cons.mp hy with h | h
      · exact ⟨i, Nat.le_refl i, h ▸ hidx⟩
      · obtain ⟨j, hij, hj⟩ := ih (i + 1) y h
        exact ⟨j, by omega, hj⟩
    · rw [keepFirstByConcept, if_neg hidx] at hy
      obtain ⟨j, hij, hj⟩ := ih (i + 1) y hy
      exact ⟨j, by omega, hj⟩

/-- The dedup filter leaves no two entries with the same case-insensitive
concept. -/
theorem keepFirstByConcept_pairwise (full : List RawKeyPoint) :
    ∀ (l : List RawKeyPoint) (i : Nat),
    List.Pairwise (fun a b => conceptKey a ≠ conceptKey b)
      (keepFirstByConcept full i l) := by
  intro l
  induction l with
  | nil => intro i; simp [keepFirstByConcept]
  | cons kp rest ih =>
    intro i
    by_cases hidx : full.findIdx? (fun o => conceptKey o == conceptKey kp) = some i
    · rw [keepFirstByConcept, if_pos hidx]
      refine List.Pairwise.cons ?_ (ih (i + 1))
      intro y hy heq
      obtain ⟨j, hij, hj⟩ := keepFirstByConcept_mem_findIdx full rest (i + 1) y hy
      rw [show (fun o => conceptKey o == conceptKey y)
          = (fun o => conceptKey o == conceptKey kp) from
        funext (fun o => by rw [heq])] at hj
      rw [hidx] at hj
      have hij2 : i = j := Option.some.inj hj
      omega
    · rw [keepFirstByConcept, if_neg hidx]
      exact ih (i + 1)

/-- The dedup filter never lengthens the list. -/
theorem keepFirstByConcept_length_le (full : List RawKeyPoint) :
    ∀ (l : List RawKeyPoint) (i : Nat),
    (keepFirstByConcept full i l).length ≤ l.length := by
  intro l
  induction l with
  | nil => intro i; simp [keepFirstByConcept]
  | cons kp rest ih =>
    intro i
    by_cases hidx : full.findIdx? (fun o => conceptKey o == conceptKey kp) = some i
    · rw [keepFirstByConcept, if_pos hidx]
      simpa using ih (i + 1)
    · rw [keepFirstByConcept, if_neg hidx]
      exact Nat.le_succ_of_le (ih (i + 1))

/-- Claim C7: for every raw key-point list and every maximum count, the
output of `validateAndCleanKeyPoints` has no two entries with equal
case-insensitive `concept`, and its length is at most the maximum count. -/
theorem validateAndCleanKeyPoints_unique_bounded (keyPoints : List RawKeyPoint)
    (maxCount : Nat) :
    List.Pairwise
      (fun a b => strToLower (a.concept.getD "") ≠ strToLower (b.concept.getD ""))
      (validateAndCleanKeyPoints keyPoints maxCount)
    ∧ (validateAndCleanKeyPoints keyPoints maxCount).length ≤ maxCount := by
  constructor
  · exact keepFirstByConcept_pairwise _ _ 0
  · calc (validateAndCleanKeyPoints keyPoints maxCount).length
        ≤ _ := keepFirstByConcept_length_le _ _ 0
      _ ≤ maxCount := by
        simp [validateAndCleanKeyPoints]

/-! ## Claim C5: classification of an empty recovery result -/

/-- Claim C5 (amended): whenever the recovery and normalization pipeline
produces an empty validated sequence, `doExecute` fails with the error
classified as `UNKNOWN_ERROR`, not `PARSING_ERROR`: the thrown message
`'No valid key points extracted from the document'` contains none of the
classifier's keywords (`timeout`, `API`, `model`, `parse`, `JSON`), so the
`catch` block's final branch tags it `UNKNOWN_ERROR`. -/
theorem keypointEmptyResult_unknownError (jp : String → Option JsValue)
    (maxKeyPoints : Nat) (responseText : String)
    (h : validateAndCleanKeyPoints (parseKeyPointsResponse jp responseText)
      maxKeyPoints = []) :
    keypointDoExecutePost jp maxKeyPoints responseText =
      .error ("UNKNOWN_ERROR: No valid key points extracted from the document") := by
  simp only [keypointDoExecutePost, h]
  rfl

/-- Witness for C5 (amended): a throwing parser and an empty response give
an empty validated sequence, classified `UNKNOWN_ERROR`. -/
theorem keypointEmptyResult_unknownError_witness :
    validateAndCleanKeyPoints (parseKeyPointsResponse (fun _ => none) "") 8 = []
    ∧ keypointDoExecutePost (fun _ => none) 8 "" =
      .error ("UNKNOWN_ERROR: No valid key points extracted from the document") :=
  ⟨by decide, keypointEmptyResult_unknownError (fun _ => none) 8 "" (by decide)⟩

/-- Counterexample to C5 as stated: at the empty validated sequence the
failure is tagged `UNKNOWN_ERROR: ...`, which is not the `PARSING_ERROR`
tag the claim requires (the error string does not even start with
`PARSING_ERROR`). -/
theorem keypointEmptyResult_counterexample :
    keypointDoExecutePost (fun _ => none) 8 "" =
      .error ("UNKNOWN_ERROR: No valid key points extracted from the document")
    ∧ ("UNKNOWN_ERROR: No valid key points extracted from the document"
        ≠ "PARSING_ERROR: Failed to parse LLM response")
    ∧ List.isPrefixOf "PARSING_ERROR".data
        "UNKNOWN_ERROR: No valid key points extracted from the document".data = false := by
  refine ⟨by rfl, by decide, by decide⟩

/-! ## Claim C6: multiple-choice shape invariant -/

/-- The three per-type fixups never change a question's `type`. -/
theorem fixMultipleChoice_type (n : QuizQuestion) :
    (fixMultipleChoice n).type = n.type := by
  unfold fixMultipleChoice
  split_ifs <;> rfl

/-- Lemma: `fixTrueFalse` preserves `type`. -/
theorem fixTrueFalse_type (n : QuizQuestion) : (fixTrueFalse n).type = n.type := by
  unfold fixTrueFalse
  dsimp only
  split_ifs <;> rfl

/-- Lemma: `fixFillBlank` preserves `type`. -/
theorem fixFillBlank_type (n : QuizQuestion) : (fixFillBlank n).type = n.type := by
  unfold fixFillBlank
  dsimp only
  split_ifs <;> rfl

/-- Lemma: `fixTrueFalse` is the identity away from `true_false`. -/
theorem fixTrueFalse_of_ne (n : QuizQuestion) (h : ¬ n.type = "true_false") :
    fixTrueFalse n = n := by
  unfold fixTrueFalse
  rw [if_neg h]

/-- Lemma: `fixFillBlank` is the identity away from `fill_blank`. -/
theorem fixFillBlank_of_ne (n : QuizQuestion) (h : ¬ n.type = "fill_blank") :
    fixFillBlank n = n := by
  unfold fixFillBlank
  rw [if_neg h]

/-- On a `multiple_choice` question the first fixup reduces to the option
count check. -/
theorem fixMultipleChoice_of_mc (n : QuizQuestion) (h : n.type = "multiple_choice") :
    fixMultipleChoice n =
      if n.options.length < 2 then
        { n with options := defaultOptions, correctAnswer := "选项A" }
      else n := by
  unfold fixMultipleChoice
  by_cases hlen : n.options.length < 2
  · rw [if_pos ⟨h, hlen⟩, if_pos hlen]
  · rw [if_neg (by intro hc; exact hlen hc.2), if_neg hlen]

/-- Claim C6 (amended): every question normalized by
`validateAndNormalizeQuestion` whose type is `multiple_choice` has at
least 2 options; and when the raw question's `options` is an array with
fewer than 2 entries, the normalizer substitutes the four default options
and sets `correctAnswer` to the first of them — in that repair case the
`correctAnswer` is a member of `options`.  (Membership of `correctAnswer`
in `options` does **not** hold in general: when the raw options already
have ≥ 2 entries the correct answer is taken from the raw question
unchecked — see the counterexample.) -/
theorem validateAndNormalizeQuestion_mc_options (q : RawQuizQuestion) (index : Nat) :
    ((validateAndNormalizeQuestion q index).type = "multiple_choice" →
      2 ≤ (validateAndNormalizeQuestion q index).options.length)
    ∧ (∀ l, (validateAndNormalizeQuestion q index).type = "multiple_choice" →
        q.options = some l → l.length < 2 →
        (validateAndNormalizeQuestion q index).options = defaultOptions
        ∧ (validateAndNormalizeQuestion q index).correctAnswer = "选项A"
        ∧ (validateAndNormalizeQuestion q index).correctAnswer
            ∈ (validateAndNormalizeQuestion q index).options) := by
  have hbase : (normalizeQuestionBase q index).type = jsOrStr q.type "multiple_choice" := rfl
  have htype_eq : (validateAndNormalizeQuestion q index).type
      = (normalizeQuestionBase q index).type := by
    unfold validateAndNormalizeQuestion
    rw [fixFillBlank_type, fixTrueFalse_type, fixMultipleChoice_type]
  have hred : ∀ hmc : (normalizeQuestionBase q index).type = "multiple_choice",
      validateAndNormalizeQuestion q index =
        if (normalizeQuestionBase q index).options.length < 2 then
          { normalizeQuestionBase q index with
              options := defaultOptions, correctAnswer := "选项A" }
        else normalizeQuestionBase q index := by
    intro hmc
    unfold validateAndNormalizeQuestion
    rw [fixMultipleChoice_of_mc _ hmc]
    by_cases hlen : (normalizeQuestionBase q index).options.length < 2
    · rw [if_pos hlen,
        fixTrueFalse_of_ne _ (by simp [hmc]), fixFillBlank_of_ne _ (by simp [hmc])]
    · rw [if_neg hlen,
        fixTrueFalse_of_ne _ (by rw [hmc]; decide),
        fixFillBlank_of_ne _ (by rw [hmc]; decide)]
  constructor
  · intro htype
    rw [htype_eq] at htype
    rw [hred htype]
    by_cases hlen : (normalizeQuestionBase q index).options.length < 2
    · rw [if_pos hlen]
      show (2 : Nat) ≤ defaultOptions.length
      decide
    · rw [if_neg hlen]
      omega
  · intro l htype hsome hlen
    rw [htype_eq] at htype
    rw [hred htype]
    have hoptlen : (normalizeQuestionBase q index).options.length = l.length := by
      show (match q.options with
        | some l => l.map cleanText
        | none => defaultOptions).length = l.length
      rw [hsome]
      simp
    rw [if_pos (by omega)]
    refine ⟨rfl, rfl, ?_⟩
    show "选项A" ∈ defaultOptions
    decide

/-- Witness for C6: a multiple-choice question arriving with a single
option is repaired to the four defaults with `correctAnswer = 选项A`, a
member of its options. -/
theorem validateAndNormalizeQuestion_mc_options_witness :
    (validateAndNormalizeQuestion
        ⟨none, none, some "Which?", some ["only"], some "nope", none, none, none, none⟩
        3).type = "multiple_choice"
    ∧ (⟨none, none, some "Which?", some ["only"], some "nope", none, none, none,
        none⟩ : RawQuizQuestion).options = some ["only"]
    ∧ (["only"] : List String).length < 2
    ∧ ((validateAndNormalizeQuestion
          ⟨none, none, some "Which?", some ["only"], some "nope", none, none, none,
            none⟩ 3).options = defaultOptions
      ∧ (validateAndNormalizeQuestion
          ⟨none, none, some "Which?", some ["only"], some "nope", none, none, none,
            none⟩ 3).correctAnswer = "选项A"
      ∧ (validateAndNormalizeQuestion
          ⟨none, none, some "Which?", some ["only"], some "nope", none, none, none,
            none⟩ 3).correctAnswer
          ∈ (validateAndNormalizeQuestion
              ⟨none, none, some "Which?", some ["only"], some "nope", none, none,
                none, none⟩ 3).options) :=
  ⟨by decide, rfl, by decide,
    (validateAndNormalizeQuestion_mc_options
      ⟨none, none, some "Which?", some ["only"], some "nope", none, none, none, none⟩
      3).2 ["only"] (by decide) rfl (by decide)⟩

/-- Counterexample to C6 as stated: a parsed multiple-choice question with
two options and a `correctAnswer` not among them passes
`validateAndNormalizeQuestion` unchanged (type `multiple_choice`, 2
options, `correctAnswer ∉ options`) and survives `optimizeQuestions` into
the final quiz. -/
theorem validateAndNormalizeQuestion_membership_counterexample :
    (validateAndNormalizeQuestion
        ⟨some "q1", some "multiple_choice", some "Pick one", some ["Apple", "Banana"],
          some "Cherry", some "because", some "easy", some "fruit", some 1⟩ 1).type
      = "multiple_choice"
    ∧ 2 ≤ (validateAndNormalizeQuestion
        ⟨some "q1", some "multiple_choice", some "Pick one", some ["Apple", "Banana"],
          some "Cherry", some "because", some "easy", some "fruit", some 1⟩ 1).options.length
    ∧ (validateAndNormalizeQuestion
        ⟨some "q1", some "multiple_choice", some "Pick one", some ["Apple", "Banana"],
          some "Cherry", some "because", some "easy", some "fruit", some 1⟩ 1).correctAnswer
        ∉ (validateAndNormalizeQuestion
          ⟨some "q1", some "multiple_choice", some "Pick one", some ["Apple", "Banana"],
            some "Cherry", some "because", some "easy", some "fruit", some 1⟩ 1).options
    ∧ optimizeQuestions
        [validateAndNormalizeQuestion
          ⟨some "q1", some "multiple_choice", some "Pick one", some ["Apple", "Banana"],
            some "Cherry", some "because", some "easy", some "fruit", some 1⟩ 1] 1
      = [validateAndNormalizeQuestion
          ⟨some "q1", some "multiple_choice", some "Pick one", some ["Apple", "Banana"],
            some "Cherry", some "because", some "easy", some "fruit", some 1⟩ 1] := by
  refine ⟨by decide, by decide, by decide, by decide⟩

/-! ## Claim C8: learning path size and time unit -/

/-- Lemma: `normalizeTimeEstimate` always emits the single unit `分钟` (minutes). -/
theorem normalizeTimeEstimate_minutes (time : Option String) (lvl : UserLevel) :
    ∃ n : Nat, normalizeTimeEstimate time lvl = toString n ++ "分钟" := by
  have hd : ∃ n : Nat,
      (if lvl = UserLevel.beginner then "45分钟" else "30分钟")
        = toString n ++ "分钟" := by
    by_cases hb : lvl = UserLevel.beginner
    · exact ⟨45, by rw [if_pos hb]; decide⟩
    · exact ⟨30, by rw [if_neg hb]; decide⟩
  unfold normalizeTimeEstimate
  cases time with
  | none => exact hd
  | some t =>
    dsimp only
    by_cases h1 : (jsTrim t).length = 0
    · rw [if_pos h1]
      exact hd
    · rw [if_neg h1]
      cases hrun : firstDigitRun t with
      | none => exact hd
      | some ds =>
        exact ⟨if lvl = UserLevel.beginner then max 30 (jsCeil12 (digitsToNat ds))
          else max 15 (jsCeil08 (digitsToNat ds)), rfl⟩

/-- Every normalized (filter/map) step's time is in minutes. -/
theorem validLearningSteps_minutes (steps : List RawLearningStep) (lvl : UserLevel) :
    ∀ st ∈ validLearningSteps steps lvl,
    ∃ n : Nat, st.time = some (toString n ++ "分钟") := by
  intro st hst
  unfold validLearningSteps at hst
  obtain ⟨st0, _, rfl⟩ := List.mem_map.mp hst
  obtain ⟨n, hn⟩ := normalizeTimeEstimate_minutes st0.time lvl
  exact ⟨n, by simp [hn]⟩

/-- Every built-in default step's time is in minutes. -/
theorem defaultLearningSteps_minutes (lvl : UserLevel) :
    ∀ st ∈ defaultLearningSteps lvl,
    ∃ n : Nat, st.time = some (toString n ++ "分钟") := by
  cases lvl <;> intro st hst <;> simp [defaultLearningSteps] at hst
  · rcases hst with h | h | h <;> subst h
    · exact ⟨30, by decide⟩
    · exact ⟨45, by decide⟩
    · exact ⟨60, by decide⟩
  · rcases hst with h | h <;> subst h
    · exact ⟨30, by decide⟩
    · exact ⟨45, by decide⟩

/-- Numbering preserves the list length. -/
theorem numberLearningSteps_length :
    ∀ (l : List RawLearningStep) (i : Nat), (numberLearningSteps i l).length = l.length := by
  intro l
  induction l with
  | nil => intro i; rfl
  | cons st rest ih => intro i; simp [numberLearningSteps, ih]

/-- Numbering only touches the `step` text, never the `time`. -/
theorem numberLearningSteps_time :
    ∀ (l : List RawLearningStep) (i : Nat) (st : RawLearningStep),
    st ∈ numberLearningSteps i l → ∃ st0 ∈ l, st.time = st0.time := by
  intro l
  induction l with
  | nil => intro i st hst; simp [numberLearningSteps] at hst
  | cons hd rest ih =>
    intro i st hst
    rcases List.mem_cons.mp hst with h | h
    · exact ⟨hd, List.mem_cons_self hd rest, by rw [h]⟩
    · obtain ⟨st0, hst0, ht⟩ := ih (i + 1) st h
      exact ⟨st0, List.mem_cons_of_mem hd hst0, ht⟩

/-- Length of the padded list. -/
theorem addDefaultSteps_length (l : List RawLearningStep) (lvl : UserLevel) :
    (addDefaultSteps l lvl).length
      = min 8 (l.length + (if lvl = UserLevel.beginner then 3 else 2)) := by
  unfold addDefaultSteps
  rw [List.length_take, List.length_append]
  cases lvl <;> simp [defaultLearningSteps]

/-- Provenance of padded-list entries. -/
theorem addDefaultSteps_mem (l : List RawLearningStep) (lvl : UserLevel) :
    ∀ st ∈ addDefaultSteps l lvl, st ∈ l ∨ st ∈ defaultLearningSteps lvl := by
  intro st hst
  unfold addDefaultSteps at hst
  exact List.mem_append.mp (List.take_subset 8 _ hst)

/-- Claim C8 (amended): for every raw step list and user level, the
optimized learning path has at most 8 entries; it has at least 3 for a
beginner, and for an advanced user at least 2 — with the full lower bound
3 whenever at least one raw step survives the validity filter.  Every
entry's `time` is expressed in the single unit 分钟 (minutes).  (The
original claim of an unconditional 3-entry minimum fails for an advanced
user whose steps are all filtered out: `addDefaultSteps` pads with only 2
advanced defaults — see the counterexample.) -/
theorem optimizeLearningPath_bounds (steps : List RawLearningStep) (lvl : UserLevel) :
    (optimizeLearningPath steps lvl).length ≤ 8
    ∧ (lvl = UserLevel.beginner → 3 ≤ (optimizeLearningPath steps lvl).length)
    ∧ (lvl = UserLevel.advanced → 2 ≤ (optimizeLearningPath steps lvl).length)
    ∧ (lvl = UserLevel.advanced → validLearningSteps steps lvl ≠ [] →
        3 ≤ (optimizeLearningPath steps lvl).length)
    ∧ ∀ st ∈ optimizeLearningPath steps lvl,
        ∃ n : Nat, st.time = some (toString n ++ "分钟") := by
  have hlen : (optimizeLearningPath steps lvl).length =
      (if 8 < (validLearningSteps steps lvl).length then
        ((validLearningSteps steps lvl).take 8).length
      else if (validLearningSteps steps lvl).length < 3 then
        (addDefaultSteps (validLearningSteps steps lvl) lvl).length
      else (validLearningSteps steps lvl).length) := by
    unfold optimizeLearningPath
    dsimp only
    split_ifs <;> rw [numberLearningSteps_length]
  have htime : ∀ st ∈ optimizeLearningPath steps lvl,
      ∃ n : Nat, st.time = some (toString n ++ "分钟") := by
    intro st hst
    unfold optimizeLearningPath at hst
    dsimp only at hst
    obtain ⟨st0, hst0, ht⟩ := numberLearningSteps_time _ 0 st hst
    rw [ht]
    split_ifs at hst0 with h8 h3
    · exact validLearningSteps_minutes steps lvl st0 (List.take_subset 8 _ hst0)
    · rcases addDefaultSteps_mem _ lvl st0 hst0 with h | h
      · exact validLearningSteps_minutes steps lvl st0 h
      · exact defaultLearningSteps_minutes lvl st0 h
    · exact validLearningSteps_minutes steps lvl st0 hst0
  refine ⟨?_, ?_, ?_, ?_, htime⟩
  · rw [hlen]
    split_ifs with h8 h3
    · simp [List.length_take]
    · rw [addDefaultSteps_length]
      omega
    · omega
  · intro hb
    rw [hlen]
    split_ifs with h8 h3
    · simp [List.length_take]
      omega
    · rw [addDefaultSteps_length, if_pos hb]
      omega
    · omega
  · intro ha
    rw [hlen]
    split_ifs with h8 h3
    · simp [List.length_take]
      omega
    · rw [addDefaultSteps_length]
      have : ¬ (lvl = UserLevel.beginner) := by rw [ha]; decide
      rw [if_neg this]
      omega
    · omega
  · intro ha hne
    have hpos : 0 < (validLearningSteps steps lvl).length := List.length_pos.mpr hne
    rw [hlen]
    split_ifs with h8 h3
    · simp [List.length_take]
      omega
    · rw [addDefaultSteps_length]
      have : ¬ (lvl = UserLevel.beginner) := by rw [ha]; decide
      rw [if_neg this]
      omega
    · omega

/-- Witness for C8: one valid raw step at advanced level gives a 3-entry
path, every entry timed in minutes. -/
theorem optimizeLearningPath_bounds_witness :
    (UserLevel.advanced = UserLevel.advanced) ∧
    validLearningSteps
        [⟨some "Learn the basics", some "20分钟",
          some "a sufficiently long description text", none, none, none⟩]
        UserLevel.advanced ≠ [] ∧
    3 ≤ (optimizeLearningPath
        [⟨some "Learn the basics", some "20分钟",
          some "a sufficiently long description text", none, none, none⟩]
        UserLevel.advanced).length :=
  ⟨rfl, by decide,
    (optimizeLearningPath_bounds
      [⟨some "Learn the basics", some "20分钟",
        some "a sufficiently long description text", none, none, none⟩]
      UserLevel.advanced).2.2.2.1 rfl (by decide)⟩

/-- Counterexample to C8 as stated: for an advanced user with no surviving
raw steps the optimized path has exactly 2 entries, below the claimed
minimum of 3. -/
theorem optimizeLearningPath_advanced_counterexample :
    (optimizeLearningPath [] UserLevel.advanced).length = 2 ∧ ¬ (3 ≤ 2) :=
  ⟨by decide, by decide⟩

/-! ## Sanity checks of the embedded string algorithms

Concrete evaluations pinning the behaviour of the regex and text models
against the JavaScript semantics. -/

/-- Lemma: whitespace runs collapse to single spaces and the ends are
trimmed, as in `cleanText`. -/
theorem cleanText_example :
    cleanText "  a\n\n b\t c  " = "a b c" := by decide

/-- Lemma: the bracket regex finds a leftmost match and the greedy
`[\s\S]*` extends it to the last viable closing. -/
theorem bracketMatch_examples :
    bracketMatch "xx[ \x7ba\x7d ]yy" = some "[ \x7ba\x7d ]"
    ∧ bracketMatch "[\x7ba\x7d] x \x7d]" = some "[\x7ba\x7d] x \x7d]"
    ∧ bracketMatch "a[b\x7bc\x7dd]e" = none
    ∧ bracketMatch "[\x7b]\x7d" = none
    ∧ bracketMatch "no brackets at all" = none := by
  refine ⟨by decide, by decide, by decide, by decide, by decide⟩

/-- Lemma: the line heuristic collects numbered and bulleted items with
their following description lines. -/
theorem parseKeyPointsFromText_example :
    parseKeyPointsFromText
        "1. Closures in JS\nA closure captures its scope\n- Promises explained\nthey model async results"
      = [{ concept := some "Closures in JS",
           description := some " A closure captures its scope",
           importance := some "medium", category := none, examples := some [] },
         { concept := some "Promises explained",
           description := some " they model async results",
           importance := some "medium", category := none, examples := some [] }] := by
  decide
